import Mathlib

/-!
Shallow embedding of the impedance-match engine of `IM_module.py` /
`IM_app.py` (ImpactsWiki impedance-match-app), with theorems settling the
frozen claims about it.

Modelling conventions:
* Machine floats are modelled by exact rationals (`ℚ`).  Division is Lean's
  total division (`x / 0 = 0`); all concrete runs and all general theorems
  below only divide where the Python code divides by a nonzero float.
* `np.exp`, `np.power` and `np.sqrt` are transcendental; the embedding takes
  them as explicit function parameters (`expfn`, `powfn`, `sqrtfn`).  Every
  theorem below either holds for all such functions or instantiates them at
  arguments where they are determined (e.g. exponent 1, where
  `powfn b 1 = b` is the faithful instantiation).
* The float NaN sentinel used by the source to mark undefined curve samples
  is modelled by `Option ℚ` (`none` = NaN): curve arrays that can carry NaN
  are `List (Option ℚ)`, arrays that never do are `List ℚ`.
* A Python exception escaping a function (an uncaught `IndexError`) is
  modelled by an `Option` result, `none` meaning "raises".
-/

/-! Batteries marks the arithmetic on `Rat` `@[irreducible]`, which blocks
kernel evaluation by `decide`; restore the default reducibility so concrete
runs of the embedded functions can be evaluated in proofs. -/
set_option allowUnsafeReducibility true in
attribute [semireducible] Rat.add Rat.sub Rat.mul Rat.inv

set_option maxRecDepth 4000

/-- Model of `np.max` on a (nonempty) array; `0` on the empty list. -/
def npmax : List ℚ → ℚ
  | [] => 0
  | h :: t => t.foldl max h

/-- Model of `np.interp x xp fp` for a strictly increasing knot list `xp`:
clamps to the end values and interpolates linearly in between. -/
def interpQ (x : ℚ) : List ℚ → List ℚ → ℚ
  | x0 :: x1 :: xt, y0 :: y1 :: yt =>
      if x ≤ x0 then y0
      else if x ≤ x1 then y0 + (x - x0) * (y1 - y0) / (x1 - x0)
      else interpQ x (x1 :: xt) (y1 :: yt)
  | [_x0], y0 :: _ => y0
  | _, _ => 0

/-- Consecutive-point segments of a polyline given by coordinate lists:
entry `i` is `(x i, y i, x (i+1), y (i+1))`. -/
def segs : List ℚ → List ℚ → List (ℚ × ℚ × ℚ × ℚ)
  | x0 :: x1 :: xt, y0 :: y1 :: yt => (x0, y0, x1, y1) :: segs (x1 :: xt) (y1 :: yt)
  | _, _ => []

/-- One candidate segment pair of `Intersection` (`IM_module.py` lines
1050-1126): the axis-aligned bounding-box test of `_rectangle_intersection_`,
then the exact 2×2 solve for the segment parameters `t1`, `t2` (the 4×4
system of the source reduced by eliminating the point coordinates; an exactly
singular system is skipped, as the source's caught `LinAlgError` leads to an
out-of-range `Inf` row), accepting only `t1, t2 ∈ [0,1]`. -/
def segPairSolve (x1i y1i x1j y1j x2i y2i x2j y2j : ℚ) : Option (ℚ × ℚ) :=
  if min x1i x1j ≤ max x2i x2j ∧ max x1i x1j ≥ min x2i x2j ∧
     min y1i y1j ≤ max y2i y2j ∧ max y1i y1j ≥ min y2i y2j then
    let dx1 := x1j - x1i
    let dy1 := y1j - y1i
    let dx2 := x2j - x2i
    let dy2 := y2j - y2i
    let det := dx2 * dy1 - dx1 * dy2
    if det = 0 then none
    else
      let t1 := (dx2 * (y2i - y1i) - dy2 * (x2i - x1i)) / det
      let t2 := (dx1 * (y2i - y1i) - dy1 * (x2i - x1i)) / det
      if 0 ≤ t1 ∧ t1 ≤ 1 ∧ 0 ≤ t2 ∧ t2 ≤ 1 then
        some (x1i + t1 * dx1, y1i + t1 * dy1)
      else none
  else none

/-- Model of `Intersection(x1, y1, x2, y2)` of `IM_module.py`: all crossing
points of the two polylines, in the source's discovery order (row-major over
the segment pairs, curve-1 segment index outermost, exactly the order of
`np.nonzero` over the bounding-box candidate matrix). -/
def Intersection (x1 y1 x2 y2 : List ℚ) : List (ℚ × ℚ) :=
  (segs x1 y1).flatMap fun s1 => (segs x2 y2).filterMap fun s2 =>
    segPairSolve s1.1 s1.2.1 s1.2.2.1 s1.2.2.2 s2.1 s2.2.1 s2.2.2.1 s2.2.2.2

/-- Model of class `EOS_Point`. -/
structure EOSPoint where
  p : ℚ
  v : ℚ
  e : ℚ
  up : ℚ
  deriving DecidableEq, Repr

/-- Model of class `EOS_Line` as used for the principal Hugoniot, whose
arrays never carry the NaN sentinel. -/
structure HugLine where
  uparr : List ℚ
  usarr : List ℚ
  parr : List ℚ
  varr : List ℚ
  earr : List ℚ
  garr : List ℚ
  deriving DecidableEq, Repr

/-- Model of class `EOS_Line` as used for the isentrope and the reshock
Hugoniot, whose `parr`, `earr`, `uparr`, `uparr2` samples can be masked NaN
(modelled `none`); the source never masks `varr` or `garr`. -/
structure MaskedLine where
  parr : List (Option ℚ)
  earr : List (Option ℚ)
  uparr : List (Option ℚ)
  uparr2 : List (Option ℚ)
  varr : List ℚ
  garr : List ℚ
  deriving DecidableEq, Repr

/-- Model of class `Material`: the EOS parameters and the per-material
curve/state slots used by the matching engine. -/
structure Material where
  rho0 : ℚ
  v0 : ℚ
  c0 : ℚ
  s1 : ℚ
  s2 : ℚ
  d : ℚ
  g0 : ℚ
  q : ℚ
  p0 : ℚ
  e0 : ℚ
  hug : HugLine
  isen : MaskedLine
  reshock : MaskedLine
  im1 : EOSPoint
  im2 : EOSPoint
  deriving DecidableEq, Repr

/-- The all-zero material state produced by `Material.__init__`. -/
def Material.init : Material :=
  { rho0 := 0, v0 := 0, c0 := 0, s1 := 0, s2 := 0, d := 0, g0 := 0, q := 0
    p0 := 0, e0 := 0
    hug := ⟨[], [], [], [], [], []⟩
    isen := ⟨[], [], [], [], [], []⟩
    reshock := ⟨[], [], [], [], [], []⟩
    im1 := ⟨0, 0, 0, 0⟩, im2 := ⟨0, 0, 0, 0⟩ }

/-- Model of `Material.DefineParams` (the manual-input initializer). -/
def Material.DefineParams (m : Material) (rho0 c0 s1 s2 d g0 q : ℚ) : Material :=
  { m with rho0 := rho0, v0 := 1 / rho0, c0 := c0, s1 := s1, s2 := s2, d := d
           g0 := g0, q := q }

/-- Model of `Material.MakeHugoniot(self, uparr)` (`IM_module.py` lines
531-572) on the materials-database parameters (the `ihedbool=False` path the
app uses).  `expfn` models `np.exp`, `powfn` models `np.power`.  The shock
velocity form is selected by `d`: `d = 0` gives the line/quadratic form,
`d ≠ 0` the modified universal-liquid form.  A non-positive `g0` is replaced
(with a printed, non-fatal warning) by the defaults `g0 = 1`, `q = 1` before
the Grüneisen array is formed. -/
def Material.MakeHugoniot (expfn : ℚ → ℚ) (powfn : ℚ → ℚ → ℚ)
    (m : Material) (uparr : List ℚ) : Material :=
  let usarr : List ℚ :=
    if m.d = 0 then
      uparr.map fun u => m.c0 + m.s1 * u + m.s2 * u * u
    else
      uparr.map fun u => m.c0 + m.s1 * u - m.s2 * u * expfn (-m.d * u)
  let parr : List ℚ := List.zipWith (fun u us => m.rho0 * u * us) uparr usarr
  let varr : List ℚ := List.zipWith (fun u us => m.v0 * (1 - u / us)) uparr usarr
  let earr : List ℚ := List.zipWith (fun p v => m.e0 + (1/2) * p * (m.v0 - v)) parr varr
  let g0 : ℚ := if m.g0 ≤ 0 then 1 else m.g0
  let q : ℚ := if m.g0 ≤ 0 then 1 else m.q
  let garr : List ℚ := varr.map fun v => g0 * powfn (m.rho0 * v) q
  { m with g0 := g0, q := q
           hug := { uparr := uparr, usarr := usarr, parr := parr, varr := varr
                    earr := earr, garr := garr } }

/-- Model of `Material.MakeReshockHug(self, pstart)` in its default trivial
mode (`usemgmodelbool=False`, `IM_module.py` lines 726-738): the principal
Hugoniot is copied, `uparr` is mirrored about the departure particle
velocity, `uparr2` keeps the original grid, and the samples whose pressure
lies strictly below the departure pressure have `uparr`, `parr`, `earr`
masked NaN.  Returns the success flag together with the updated material. -/
def Material.MakeReshockHug (m : Material) (pstart : EOSPoint) : Bool × Material :=
  let mask : ℚ → Bool := fun p => decide (p < pstart.p)
  let reshock : MaskedLine :=
    { parr := m.hug.parr.map fun p => if mask p then none else some p
      earr := (List.zipWith (fun p e => if mask p then none else some e) m.hug.parr m.hug.earr)
      uparr := (List.zipWith (fun p u => if mask p then none else some (2 * pstart.up - u))
                 m.hug.parr m.hug.uparr)
      uparr2 := m.hug.uparr.map some
      varr := m.hug.varr
      garr := m.hug.garr }
  (true, { m with reshock := reshock })

/-- Per-index Hugoniot data `(p, e, g, v)` consumed by the isentrope walks. -/
def hugSamples (h : HugLine) : List (ℚ × ℚ × ℚ × ℚ) :=
  List.zipWith (fun p (x : ℚ × ℚ × ℚ) => (p, x)) h.parr
    (List.zipWith (fun e (x : ℚ × ℚ) => (e, x)) h.earr
      (List.zipWith (fun g v => (g, v)) h.garr h.varr))

/-- Walk state of the isentrope integration: the previously solved
neighbour's `(p, e, up, up2, v)`. -/
structure WalkState where
  p : ℚ
  e : ℚ
  up : ℚ
  up2 : ℚ
  v : ℚ
  deriving DecidableEq, Repr

/-- First step of the release-direction walk of `MakeMGIsentrope`
(`IM_module.py` lines 622-644, `i = istart-1`): a non-positive first volume
step, or the source's one-sided symmetric-impact guard
`abs(2*up/impvel) - 1 < 1e-5`, copies the departure point into the sample;
otherwise the finite-difference update runs and the particle velocity is
only filled (from the departure state) when its radicand is positive,
remaining the initialized `0` otherwise. -/
def downFirst (sqrtfn : ℚ → ℚ) (s : ℚ × ℚ × ℚ × ℚ) (pstart : EOSPoint)
    (impvel : ℚ) : ℚ × ℚ × ℚ × ℚ :=
  let (hp, he, hg, hv) := s
  let dv := hv - pstart.v
  if dv ≤ 0 ∨ |2 * pstart.up / impvel| - 1 < 1/100000 then
    (pstart.p, pstart.e, pstart.up, pstart.up)
  else
    let p := (hp - (he - pstart.e + pstart.p * dv / 2) * (hg / hv)) / (1 - dv * hg / hv / 2)
    let e := pstart.e - (pstart.p + p) * dv / 2
    if 0 < -(pstart.p - p) / (pstart.v - hv) then
      let u := pstart.up - (pstart.p - p) / sqrtfn (-(pstart.p - p) / (pstart.v - hv))
      (p, e, u, u)
    else (p, e, 0, 0)

/-- Remaining steps of the release-direction walk (`IM_module.py` lines
645-660), processing indices `istart-2, …, 0`; the input list is the
corresponding Hugoniot samples in that (descending-index) order.  A
non-positive radicand copies the neighbour's particle velocity and the walk
continues; pressure and energy are always written. -/
def downSteps (sqrtfn : ℚ → ℚ) : List (ℚ × ℚ × ℚ × ℚ) → WalkState → List (ℚ × ℚ × ℚ × ℚ)
  | [], _ => []
  | s :: rest, st =>
    let (hp, he, hg, hv) := s
    let dv := hv - st.v
    let p := (hp - (he - st.e + st.p * dv / 2) * (hg / hv)) / (1 - dv * hg / hv / 2)
    let e := st.e - (st.p + p) * dv / 2
    let uu : ℚ × ℚ :=
      if 0 < -(st.p - p) / (st.v - hv) then
        (st.up - (st.p - p) / sqrtfn (-(st.p - p) / (st.v - hv)),
         st.up2 - sqrtfn (-((st.p - p) * (st.v - hv))))
      else (st.up, st.up2)
    (p, e, uu.1, uu.2) :: downSteps sqrtfn rest ⟨p, e, uu.1, uu.2, hv⟩

/-- First step of the recompression-direction walk (`IM_module.py` lines
664-686, `i = istart`): same degeneracy guard and finite-difference update
as `downFirst`, with the volume step taken from the departure volume. -/
def upFirst (sqrtfn : ℚ → ℚ) (s : ℚ × ℚ × ℚ × ℚ) (pstart : EOSPoint)
    (impvel : ℚ) : ℚ × ℚ × ℚ × ℚ :=
  let (hp, he, hg, hv) := s
  let dv := pstart.v - hv
  if dv ≤ 0 ∨ |2 * pstart.up / impvel| - 1 < 1/100000 then
    (pstart.p, pstart.e, pstart.up, pstart.up)
  else
    let p := (hp - (he - pstart.e + pstart.p * dv / 2) * (hg / hv)) / (1 - dv * hg / hv / 2)
    let e := pstart.e - (pstart.p + p) * dv / 2
    if 0 < -(pstart.p - p) / (pstart.v - hv) then
      let u := pstart.up - (pstart.p - p) / sqrtfn (-(pstart.p - p) / (pstart.v - hv))
      (p, e, u, u)
    else (p, e, 0, 0)

/-- Remaining steps of the recompression-direction walk (`IM_module.py`
lines 687-715), processing indices `istart+1, …`.  A non-positive radicand
masks the sample and the whole remainder of the branch NaN and returns with
the current success flag (which the loop has set after each completed
iteration, so the early return is still a success). -/
def upSteps (sqrtfn : ℚ → ℚ) (flag : Bool) :
    List (ℚ × ℚ × ℚ × ℚ) → WalkState → Bool × List (Option (ℚ × ℚ × ℚ × ℚ))
  | [], _ => (flag, [])
  | s :: rest, st =>
    let (hp, he, hg, hv) := s
    let dv := -(hv - st.v)
    let p := (hp - (he - st.e + st.p * dv / 2) * (hg / hv)) / (1 - dv * hg / hv / 2)
    let e := st.e + (st.p + p) * dv / 2
    if 0 < -(st.p - p) / (st.v - hv) then
      let u := st.up - (st.p - p) / sqrtfn (-(st.p - p) / (st.v - hv))
      let u2 := st.up2 + sqrtfn (-((st.p - p) * (st.v - hv)))
      let r := upSteps sqrtfn true rest ⟨p, e, u, u2, hv⟩
      (r.1, some (p, e, u, u2) :: r.2)
    else
      (flag, List.replicate (rest.length + 1) none)

/-- Model of `Material.MakeMGIsentrope(self, pstart, usemgmodelbool, impvel)`
(`IM_module.py` lines 573-715).  Entry checks in source order: a Hugoniot of
10 or fewer samples fails; Mie–Grüneisen mode with zero impact velocity
fails; the trivial mode copies the principal Hugoniot and succeeds; a
departure pressure at or above the maximum Hugoniot pressure fails.
Otherwise both finite-difference walks run outward from the departure index
`istart` (the first sample with pressure above the departure pressure) and
the result is assembled from their samples; the unwalked `varr` and `garr`
are the Hugoniot's.  Returns the success flag with the updated material. -/
def Material.MakeMGIsentrope (sqrtfn : ℚ → ℚ) (m : Material) (pstart : EOSPoint)
    (usemgmodelbool : Bool) (impvel : ℚ) : Bool × Material :=
  if m.hug.parr.length ≤ 10 then (false, m)
  else if usemgmodelbool ∧ impvel = 0 then (false, m)
  else if ¬usemgmodelbool then
    (true, { m with isen := { parr := m.hug.parr.map some, earr := m.hug.earr.map some
                              uparr := m.hug.uparr.map some, uparr2 := m.hug.uparr.map some
                              varr := m.hug.varr, garr := m.hug.garr } })
  else if npmax m.hug.parr ≤ pstart.p then (false, m)
  else
    let istart := m.hug.parr.findIdx fun x => pstart.p < x
    let samples := hugSamples m.hug
    let down : List (ℚ × ℚ × ℚ × ℚ) :=
      match (samples.take istart).reverse with
      | [] => []
      | s0 :: rest =>
        let r0 := downFirst sqrtfn s0 pstart impvel
        (r0 :: downSteps sqrtfn rest ⟨r0.1, r0.2.1, r0.2.2.1, r0.2.2.2, s0.2.2.2⟩).reverse
    let upr : Bool × List (Option (ℚ × ℚ × ℚ × ℚ)) :=
      match samples.drop istart with
      | [] => (true, [])
      | s0 :: rest =>
        let r0 := upFirst sqrtfn s0 pstart impvel
        let r := upSteps sqrtfn true rest ⟨r0.1, r0.2.1, r0.2.2.1, r0.2.2.2, s0.2.2.2⟩
        (r.1, some r0 :: r.2)
    let full : List (Option (ℚ × ℚ × ℚ × ℚ)) := down.map some ++ upr.2
    (upr.1, { m with isen := { parr := full.map (Option.map fun r => r.1)
                               earr := full.map (Option.map fun r => r.2.1)
                               uparr := full.map (Option.map fun r => r.2.2.1)
                               uparr2 := full.map (Option.map fun r => r.2.2.2)
                               varr := m.hug.varr, garr := m.hug.garr } })

/-- Model of the first-interface branch of `Material.IM_match` (`pstart==0`,
`vel>0`, `IM_module.py` lines 875-889): intersect the target's Hugoniot with
the impactor's Hugoniot reflected about the impact velocity and read the
first returned root.  The source indexes `res[0][0]` without an emptiness
check, so an empty intersection raises `IndexError`; that is the `none`
result here.  On success both materials receive the shared `(up, p)` and
their own interpolated `v`, `e` in their `im1` slots. -/
def Material.IM_match_first (mata matb : Material) (vel : ℚ) :
    Option (Material × Material) :=
  match Intersection matb.hug.uparr matb.hug.parr
      (mata.hug.uparr.map fun u => vel - u) mata.hug.parr with
  | [] => none
  | (ux, py) :: _ =>
    let ra := { mata with im1 :=
      { up := ux, p := py
        v := 1 / interpQ ux mata.hug.uparr (mata.hug.varr.map fun v => 1 / v)
        e := interpQ ux mata.hug.uparr mata.hug.earr } }
    let rb := { matb with im1 :=
      { up := ux, p := py
        v := 1 / interpQ ux matb.hug.uparr (matb.hug.varr.map fun v => 1 / v)
        e := interpQ ux matb.hug.uparr matb.hug.earr } }
    some (ra, rb)

/-- Outcome record of the orchestrator's matching phase. -/
structure ChainResult where
  attempted12 : Bool
  attempted23 : Bool
  attempted34 : Bool
  failedAt : Option Nat
  reported : List Nat
  deriving DecidableEq, Repr

/-- Model of the interface-sequencing control flow of `match_and_plot`
(`IM_app.py` lines 211-216 and 243-278), abstracted over the presence of
materials 3 and 4 and over the success values returned by the three
`IM_match` calls.  A selected material 4 without material 3 aborts before
any match (`failedAt = some 0`).  Each attempted interface appends its
number to `reported` unless its failure guard posts a message and returns.
The source's guard for the second interface tests `IM12_success` where
`IM23_success` was just assigned (line 257), which this embedding
reproduces verbatim: `s23` is consequently never consulted. -/
def match_and_plot_chain (has3 has4 : Bool) (s12 s23 s34 : Bool) : ChainResult :=
  if has4 ∧ ¬has3 then ⟨false, false, false, some 0, []⟩
  else if ¬s12 then ⟨true, false, false, some 1, []⟩
  else if ¬has3 then ⟨true, false, false, none, [1]⟩
  else if ¬s12 then ⟨true, true, false, some 2, [1]⟩
  else if ¬has4 then ⟨true, true, false, none, [1, 2]⟩
  else if ¬s34 then ⟨true, true, true, some 3, [1, 2]⟩
  else ⟨true, true, true, none, [1, 2, 3]⟩

/-- Stand-in for `np.exp` in concrete runs: every concrete material below
has `d = 0`, so the universal-liquid branch (the only consumer of the
exponential) is never taken and the value is irrelevant. -/
def expOne : ℚ → ℚ := fun _ => 1

/-- Stand-in for `np.power` in concrete runs: every concrete material below
has `q = 1`, where `np.power b 1 = b` exactly, so this instantiation is
faithful. -/
def powId : ℚ → ℚ → ℚ := fun b _ => b

/-- Stand-in for `np.sqrt` in concrete runs: every concrete fact proved
below about a run is about pressure/energy samples (which never consume the
square root) or about particle-velocity samples produced on paths that do
not call it. -/
def sqrtZero : ℚ → ℚ := fun _ => 0

/-- Aluminum-like material of the spec's scenario:
ρ0 = 2700 kg/m³, c0 = 5350 m/s, s1 = 1.16, Γ0 = q = 1. -/
def matAl : Material := Material.init.DefineParams 2700 5350 (29/25) 0 0 1 1

/-- Aluminum Hugoniot on the 9-point grid 0, 500, …, 4000 m/s (spanning
twice the 2000 m/s impact velocity of the scenario). -/
def mAl500 : Material :=
  matAl.MakeHugoniot expOne powId ((List.range 9).map fun i => (i : ℚ) * 500)

/-- Aluminum Hugoniot on the 12-point grid 0, 250, …, 2750 m/s. -/
def mAl250 : Material :=
  matAl.MakeHugoniot expOne powId ((List.range 12).map fun i => (i : ℚ) * 250)

/-- Departure state on the aluminum principal Hugoniot at up = 600 m/s
(strictly between the 500 and 750 m/s grid samples of `mAl250`):
Us = 5350 + 1.16·600 = 6046 m/s, P = ρ0·up·Us, V = V0·(1 − up/Us),
E = 0.5·P·(V0 − V). -/
def psAl600 : EOSPoint :=
  { p := 2700 * 600 * 6046
    v := (1/2700) * (1 - 600/6046)
    e := (1/2) * (2700 * 600 * 6046) * ((1:ℚ)/2700 - (1/2700) * (1 - 600/6046))
    up := 600 }

/-- Departure state on the `mAl500` aluminum principal Hugoniot exactly at
the grid sample up = 1500 m/s (Us = 5350 + 1.16·1500 = 7090 m/s). -/
def psAl1500 : EOSPoint :=
  { p := 2700 * 1500 * 7090
    v := (1/2700) * (1 - 1500/7090)
    e := (1/2) * (2700 * 1500 * 7090) * ((1:ℚ)/2700 - (1/2700) * (1 - 1500/7090))
    up := 1500 }

/-- Material with a large Grüneisen parameter (ρ0 = 1000, c0 = 1000,
s1 = 2, Γ0 = 50, q = 1) and its Hugoniot on the 12-point grid
0, 140, …, 1540 m/s; the Mie–Grüneisen walk departs it unstably. -/
def matGam : Material :=
  (Material.init.DefineParams 1000 1000 2 0 0 50 1).MakeHugoniot expOne powId
    ((List.range 12).map fun i => (i : ℚ) * 140)

/-- Departure state on the `matGam` principal Hugoniot at up = 1500 m/s:
Us = 1000 + 2·1500 = 4000 m/s. -/
def psGam1500 : EOSPoint :=
  { p := 1000 * 1500 * 4000
    v := (1/1000) * (1 - 1500/4000)
    e := (1/2) * (1000 * 1500 * 4000) * ((1:ℚ)/1000 - (1/1000) * (1 - 1500/4000))
    up := 1500 }

/-- Departure state whose pressure exceeds the whole `matGam` Hugoniot. -/
def psHuge : EOSPoint := { p := npmax matGam.hug.parr + 1, v := 0, e := 0, up := 0 }

/-- Degenerate material whose two-sample Hugoniot (grid 0, 1 m/s with
ρ0 = 1, c0 = 1, s1 = 0) cannot cross its own reflection about an impact
velocity of 5 m/s. -/
def matTiny : Material :=
  (Material.init.DefineParams 1 1 0 0 0 1 1).MakeHugoniot expOne powId [0, 1]

/-- Material with an unset Grüneisen parameter (`g0 = 0`), used to observe
the builder's default substitution. -/
def matG0 : Material := Material.init.DefineParams 1000 1000 2 0 0 0 5

/-- Mie–Grüneisen isentrope run departing `psAl600` at impact velocity
2000 m/s on the `mAl250` aluminum Hugoniot. -/
def isenAl : Bool × Material := Material.MakeMGIsentrope sqrtZero mAl250 psAl600 true 2000

/-- Mie–Grüneisen isentrope run departing `psGam1500` at impact velocity
2000 m/s on the large-Γ `matGam` Hugoniot. -/
def isenGam : Bool × Material := Material.MakeMGIsentrope sqrtZero matGam psGam1500 true 2000

/-- Trivial-mode isentrope run whose departure pressure exceeds the whole
`matGam` Hugoniot. -/
def isenTrivHigh : Bool × Material := Material.MakeMGIsentrope sqrtZero matGam psHuge false 0

/-- Claim C1 (code_bug evaluation): at a first-interface invocation
(`pstart==0`, `vel>0`) where the Intersection Solver returns no root, the
source raises `IndexError` at `res[0][0]` (modelled `none`) instead of
setting the failure flag, zeroing the states and returning, as the two
later-interface branches do. -/
theorem IM_match_first_no_root_raises :
    Intersection matTiny.hug.uparr matTiny.hug.parr
      (matTiny.hug.uparr.map fun u => 5 - u) matTiny.hug.parr = [] ∧
    Material.IM_match_first matTiny matTiny 5 = none := by
  exact ⟨by decide, by decide⟩

/-- Claim C3 (code_bug evaluation): in a 4-layer chain whose mat2→mat3
match fails (`s23 = false`) while the other matches succeed, the
orchestrator does not flag interface 2, still attempts and reports the
mat3→mat4 interface, and reports the failed interface as if it had
succeeded — because the guard after the second match tests `IM12_success`
instead of the just-assigned `IM23_success`.  The second conjunct records
that the outcome is entirely independent of the mat2→mat3 result. -/
theorem chain_attempts_after_im23_failure :
    match_and_plot_chain true true true false true
      = ⟨true, true, true, none, [1, 2, 3]⟩ ∧
    match_and_plot_chain true true true false true
      = match_and_plot_chain true true true true true := by
  exact ⟨rfl, rfl⟩

/-- Claim C4 (code_bug evaluation): departing the aluminum Hugoniot at
up = 600 m/s with impact velocity 2000 m/s — a departure velocity 40%
away from half the impact velocity, far outside the 1e-5 relative
tolerance, with a strictly positive first volume step — the one-sided
guard `abs(2*up/impvel) - 1 < 1e-5` of the source still fires, so the
first release-direction sample (index `istart - 1 = 2`) receives the
departure `P`, `E`, `up` verbatim, and differs from the value the
finite-difference update (last conjunct, the spec's formula on the same
data) would have produced. -/
theorem MakeMGIsentrope_shortcircuit_beyond_tolerance :
    ¬(|2 * psAl600.up / 2000 - 1| < 1 / 100000) ∧
    0 < mAl250.hug.varr.getD 2 0 - psAl600.v ∧
    mAl250.hug.parr.findIdx (fun x => psAl600.p < x) = 3 ∧
    isenAl.2.isen.parr.getD 2 none = some psAl600.p ∧
    isenAl.2.isen.earr.getD 2 none = some psAl600.e ∧
    isenAl.2.isen.uparr.getD 2 none = some psAl600.up ∧
    (mAl250.hug.parr.getD 2 0 -
        (mAl250.hug.earr.getD 2 0 - psAl600.e +
            psAl600.p * (mAl250.hug.varr.getD 2 0 - psAl600.v) / 2) *
          (mAl250.hug.garr.getD 2 0 / mAl250.hug.varr.getD 2 0)) /
      (1 - (mAl250.hug.varr.getD 2 0 - psAl600.v) * mAl250.hug.garr.getD 2 0 /
        mAl250.hug.varr.getD 2 0 / 2) ≠ psAl600.p := by
  refine ⟨by decide, by decide, by decide, by decide, by decide, by decide, by decide⟩

/-- Claim C5 counterexample: on the `isenGam` run the release-direction
walk reaches sample 9 with a non-positive discriminant (the isentrope
pressure of sample 10 does not exceed that of sample 9, while the volume
grid decreases with index), yet sample 9 and the rest of the branch are
not masked: pressure and energy stay defined and the particle velocity is
copied from the neighbour — contradicting the claim that in every walk
direction such a sample and the remainder of the branch are marked
undefined. -/
theorem MakeMGIsentrope_downwalk_not_masked_cex :
    matGam.hug.parr.findIdx (fun x => psGam1500.p < x) = 11 ∧
    ¬(0 < -(((isenGam.2.isen.parr.getD 10 none).getD 0) -
            ((isenGam.2.isen.parr.getD 9 none).getD 0)) /
          (isenGam.2.isen.varr.getD 10 0 - isenGam.2.isen.varr.getD 9 0)) ∧
    isenGam.2.isen.parr.getD 9 none ≠ none ∧
    isenGam.2.isen.earr.getD 9 none ≠ none ∧
    isenGam.2.isen.uparr.getD 9 none = isenGam.2.isen.uparr.getD 10 none ∧
    isenGam.2.isen.parr.getD 0 none ≠ none := by
  refine ⟨by decide, by decide, by decide, by decide, by decide, by decide⟩

/-- Claim C10 counterexample: in trivial (non-Mie–Grüneisen) mode with a
departure pressure at or above the maximum Hugoniot pressure — the third
entry condition of the claim — `MakeMGIsentrope` does not return `False`
untouched: it returns `True` and overwrites the isentrope arrays with the
copied Hugoniot. -/
theorem MakeMGIsentrope_trivial_high_pstart_cex :
    npmax matGam.hug.parr ≤ psHuge.p ∧
    10 < matGam.hug.parr.length ∧
    isenTrivHigh.1 = true ∧
    isenTrivHigh.2.isen ≠ matGam.isen := by
  refine ⟨by decide, by decide, by decide, by decide⟩

/-- Helper: the indexed optional lookup of a list at an in-range index is
its `getD` value, for any default. -/
theorem getElem?_eq_some_getD {A : Type} (l : List A) (d : A) (i : ℕ)
    (h : i < l.length) : l[i]? = some (l.getD i d) := by
  rw [List.getElem?_eq_getElem h, List.getD_eq_getElem?_getD,
    List.getElem?_eq_getElem h, Option.getD_some]

/-- Helper: `getD` through `List.zipWith` at an index present in both
lists. -/
theorem getD_zipWith_eq {A B C : Type} (f : A → B → C) (l1 : List A)
    (l2 : List B) (i : ℕ) (a : A) (b : B) (d : C)
    (h1 : l1[i]? = some a) (h2 : l2[i]? = some b) :
    (List.zipWith f l1 l2).getD i d = f a b := by
  rw [List.getD_eq_getElem?_getD, List.getElem?_zipWith, h1, h2]
  rfl

/-- Helper: `getD` through `List.map` at an in-range index. -/
theorem getD_map_eq {A B : Type} (f : A → B) (l : List A) (i : ℕ) (a : A)
    (d : B) (h : l[i]? = some a) : (l.map f).getD i d = f a := by
  rw [List.getD_eq_getElem?_getD, List.getElem?_map, h]
  rfl

/-- Helper: the shock-velocity array of a built Hugoniot, as a map over
the grid. -/
theorem MakeHugoniot_usarr (expfn : ℚ → ℚ) (powfn : ℚ → ℚ → ℚ)
    (m : Material) (uparr : List ℚ) :
    (m.MakeHugoniot expfn powfn uparr).hug.usarr =
      if m.d = 0 then uparr.map (fun u => m.c0 + m.s1 * u + m.s2 * u * u)
      else uparr.map (fun u => m.c0 + m.s1 * u - m.s2 * u * expfn (-m.d * u)) := rfl

/-- Helper: the pressure array of a built Hugoniot zips the grid with the
shock velocities. -/
theorem MakeHugoniot_parr (expfn : ℚ → ℚ) (powfn : ℚ → ℚ → ℚ)
    (m : Material) (uparr : List ℚ) :
    (m.MakeHugoniot expfn powfn uparr).hug.parr =
      List.zipWith (fun u us => m.rho0 * u * us) uparr
        (m.MakeHugoniot expfn powfn uparr).hug.usarr := rfl

/-- Helper: the volume array of a built Hugoniot zips the grid with the
shock velocities. -/
theorem MakeHugoniot_varr (expfn : ℚ → ℚ) (powfn : ℚ → ℚ → ℚ)
    (m : Material) (uparr : List ℚ) :
    (m.MakeHugoniot expfn powfn uparr).hug.varr =
      List.zipWith (fun u us => m.v0 * (1 - u / us)) uparr
        (m.MakeHugoniot expfn powfn uparr).hug.usarr := rfl

/-- Helper: the energy array of a built Hugoniot zips pressures with
volumes. -/
theorem MakeHugoniot_earr (expfn : ℚ → ℚ) (powfn : ℚ → ℚ → ℚ)
    (m : Material) (uparr : List ℚ) :
    (m.MakeHugoniot expfn powfn uparr).hug.earr =
      List.zipWith (fun p v => m.e0 + (1/2) * p * (m.v0 - v))
        (m.MakeHugoniot expfn powfn uparr).hug.parr
        (m.MakeHugoniot expfn powfn uparr).hug.varr := rfl

/-- Helper: the grid is stored unchanged. -/
theorem MakeHugoniot_uparr (expfn : ℚ → ℚ) (powfn : ℚ → ℚ → ℚ)
    (m : Material) (uparr : List ℚ) :
    (m.MakeHugoniot expfn powfn uparr).hug.uparr = uparr := rfl

/-- Helper: array lengths of a built Hugoniot all equal the grid length. -/
theorem MakeHugoniot_lengths (expfn : ℚ → ℚ) (powfn : ℚ → ℚ → ℚ)
    (m : Material) (uparr : List ℚ) :
    (m.MakeHugoniot expfn powfn uparr).hug.usarr.length = uparr.length ∧
    (m.MakeHugoniot expfn powfn uparr).hug.parr.length = uparr.length ∧
    (m.MakeHugoniot expfn powfn uparr).hug.varr.length = uparr.length ∧
    (m.MakeHugoniot expfn powfn uparr).hug.earr.length = uparr.length := by
  have hus : (m.MakeHugoniot expfn powfn uparr).hug.usarr.length = uparr.length := by
    rw [MakeHugoniot_usarr]
    by_cases hd : m.d = 0
    · rw [if_pos hd, List.length_map]
    · rw [if_neg hd, List.length_map]
  have hp : (m.MakeHugoniot expfn powfn uparr).hug.parr.length = uparr.length := by
    rw [MakeHugoniot_parr, List.length_zipWith, hus, Nat.min_self]
  have hv : (m.MakeHugoniot expfn powfn uparr).hug.varr.length = uparr.length := by
    rw [MakeHugoniot_varr, List.length_zipWith, hus, Nat.min_self]
  have he : (m.MakeHugoniot expfn powfn uparr).hug.earr.length = uparr.length := by
    rw [MakeHugoniot_earr, List.length_zipWith, hp, hv, Nat.min_self]
  exact ⟨hus, hp, hv, he⟩

/-- Claim C2: at every grid point, the Hugoniot Builder produces exactly
Us = c0 + s1·up + s2·up² when d = 0 (hence the linear form when also
s2 = 0), Us = c0 + s1·up − s2·up·exp(−d·up) when d ≠ 0, P = ρ0·up·Us,
V = V0·(1 − up/Us), and E = E0 + 0.5·P·(V0 − V), for every material and
every particle-velocity grid. -/
theorem MakeHugoniot_formulas (expfn : ℚ → ℚ) (powfn : ℚ → ℚ → ℚ)
    (m : Material) (uparr : List ℚ) (i : ℕ) (hi : i < uparr.length) :
    (m.MakeHugoniot expfn powfn uparr).hug.usarr.getD i 0 =
      (if m.d = 0 then
        m.c0 + m.s1 * uparr.getD i 0 + m.s2 * uparr.getD i 0 * uparr.getD i 0
      else
        m.c0 + m.s1 * uparr.getD i 0 -
          m.s2 * uparr.getD i 0 * expfn (-m.d * uparr.getD i 0)) ∧
    (m.MakeHugoniot expfn powfn uparr).hug.parr.getD i 0 =
      m.rho0 * uparr.getD i 0 * (m.MakeHugoniot expfn powfn uparr).hug.usarr.getD i 0 ∧
    (m.MakeHugoniot expfn powfn uparr).hug.varr.getD i 0 =
      m.v0 * (1 - uparr.getD i 0 / (m.MakeHugoniot expfn powfn uparr).hug.usarr.getD i 0) ∧
    (m.MakeHugoniot expfn powfn uparr).hug.earr.getD i 0 =
      m.e0 + (1/2) * (m.MakeHugoniot expfn powfn uparr).hug.parr.getD i 0 *
        (m.v0 - (m.MakeHugoniot expfn powfn uparr).hug.varr.getD i 0) := by
  obtain ⟨hus, hp, hv, he⟩ := MakeHugoniot_lengths expfn powfn m uparr
  have hx : uparr[i]? = some (uparr.getD i 0) := getElem?_eq_some_getD uparr 0 i hi
  have hxs : (m.MakeHugoniot expfn powfn uparr).hug.usarr[i]? =
      some ((m.MakeHugoniot expfn powfn uparr).hug.usarr.getD i 0) :=
    getElem?_eq_some_getD _ 0 i (by rw [hus]; exact hi)
  have hxp : (m.MakeHugoniot expfn powfn uparr).hug.parr[i]? =
      some ((m.MakeHugoniot expfn powfn uparr).hug.parr.getD i 0) :=
    getElem?_eq_some_getD _ 0 i (by rw [hp]; exact hi)
  have hxv : (m.MakeHugoniot expfn powfn uparr).hug.varr[i]? =
      some ((m.MakeHugoniot expfn powfn uparr).hug.varr.getD i 0) :=
    getElem?_eq_some_getD _ 0 i (by rw [hv]; exact hi)
  refine ⟨?_, ?_, ?_, ?_⟩
  · by_cases hd : m.d = 0
    · rw [if_pos hd]
      conv_lhs => rw [MakeHugoniot_usarr, if_pos hd]
      exact getD_map_eq _ uparr i _ 0 hx
    · rw [if_neg hd]
      conv_lhs => rw [MakeHugoniot_usarr, if_neg hd]
      exact getD_map_eq _ uparr i _ 0 hx
  · conv_lhs => rw [MakeHugoniot_parr]
    exact getD_zipWith_eq _ _ _ i _ _ 0 hx hxs
  · conv_lhs => rw [MakeHugoniot_varr]
    exact getD_zipWith_eq _ _ _ i _ _ 0 hx hxs
  · conv_lhs => rw [MakeHugoniot_earr]
    exact getD_zipWith_eq _ _ _ i _ _ 0 hxp hxv

/-- Claim C2 witness: on the aluminum material of the spec's scenario and
the 0..4000 m/s grid, the built Hugoniot's sample at up = 1000 m/s has
Us = 5350 + 1.16·1000 = 6510 m/s and P = 2700·1000·6510 = 1.7577e10 Pa. -/
theorem MakeHugoniot_formulas_witness :
    mAl500.hug.usarr.getD 2 0 = 6510 ∧ mAl500.hug.parr.getD 2 0 = 17577000000 := by
  have h := MakeHugoniot_formulas expOne powId matAl
    ((List.range 9).map fun i => (i : ℚ) * 500) 2 (by decide)
  exact ⟨h.1.trans (by decide), h.2.1.trans (by decide)⟩

/-- Claim C9: building a Hugoniot leaves every stored EOS parameter of the
material unchanged, except that a material with Γ0 ≤ 0 receives the
documented default substitution Γ0 = 1, q = 1 (accompanied in the source
only by a printed, non-fatal warning). -/
theorem MakeHugoniot_preserves_params (expfn : ℚ → ℚ) (powfn : ℚ → ℚ → ℚ)
    (m : Material) (uparr : List ℚ) :
    (m.MakeHugoniot expfn powfn uparr).rho0 = m.rho0 ∧
    (m.MakeHugoniot expfn powfn uparr).v0 = m.v0 ∧
    (m.MakeHugoniot expfn powfn uparr).c0 = m.c0 ∧
    (m.MakeHugoniot expfn powfn uparr).s1 = m.s1 ∧
    (m.MakeHugoniot expfn powfn uparr).s2 = m.s2 ∧
    (m.MakeHugoniot expfn powfn uparr).d = m.d ∧
    (m.MakeHugoniot expfn powfn uparr).p0 = m.p0 ∧
    (m.MakeHugoniot expfn powfn uparr).e0 = m.e0 ∧
    (0 < m.g0 → (m.MakeHugoniot expfn powfn uparr).g0 = m.g0 ∧
      (m.MakeHugoniot expfn powfn uparr).q = m.q) ∧
    (m.g0 ≤ 0 → (m.MakeHugoniot expfn powfn uparr).g0 = 1 ∧
      (m.MakeHugoniot expfn powfn uparr).q = 1) := by
  have hg : (m.MakeHugoniot expfn powfn uparr).g0 = if m.g0 ≤ 0 then 1 else m.g0 := rfl
  have hq : (m.MakeHugoniot expfn powfn uparr).q = if m.g0 ≤ 0 then 1 else m.q := rfl
  refine ⟨rfl, rfl, rfl, rfl, rfl, rfl, rfl, rfl, ?_, ?_⟩
  · intro h
    rw [hg, hq, if_neg (not_le.mpr h), if_neg (not_le.mpr h)]
    exact ⟨rfl, rfl⟩
  · intro h
    rw [hg, hq, if_pos h, if_pos h]
    exact ⟨rfl, rfl⟩

/-- Claim C9 witness: the aluminum material (Γ0 = 1 > 0) keeps its
parameters; the `matG0` material (Γ0 = 0) receives the defaults. -/
theorem MakeHugoniot_preserves_params_witness :
    mAl500.g0 = 1 ∧ mAl500.q = 1 ∧ mAl500.rho0 = 2700 ∧
    (matG0.MakeHugoniot expOne powId [0, 1]).g0 = 1 ∧
    (matG0.MakeHugoniot expOne powId [0, 1]).q = 1 := by
  have h1 := MakeHugoniot_preserves_params expOne powId matAl
    ((List.range 9).map fun i => (i : ℚ) * 500)
  have h2 := MakeHugoniot_preserves_params expOne powId matG0 [0, 1]
  have ha := (h1.2.2.2.2.2.2.2.2.1 (by decide))
  have hb := (h2.2.2.2.2.2.2.2.2.2 (by decide))
  exact ⟨ha.1.trans (by decide), ha.2.trans (by decide), h1.1.trans (by decide),
    hb.1, hb.2⟩

/-- Claim C10 (amended): `MakeMGIsentrope` returns `False` with the
material untouched whenever the prebuilt Hugoniot has 10 or fewer samples
(any mode), whenever Mie–Grüneisen mode is requested with impact velocity
0, and — in Mie–Grüneisen mode only — whenever the departure pressure is
at or above the maximum Hugoniot pressure; in trivial mode the
departure-pressure check is never reached. -/
theorem MakeMGIsentrope_entry_guards (sqrtfn : ℚ → ℚ) (m : Material)
    (pstart : EOSPoint) (usemg : Bool) (impvel : ℚ) :
    (m.hug.parr.length ≤ 10 →
      Material.MakeMGIsentrope sqrtfn m pstart usemg impvel = (false, m)) ∧
    (usemg = true → impvel = 0 →
      Material.MakeMGIsentrope sqrtfn m pstart usemg impvel = (false, m)) ∧
    (usemg = true → npmax m.hug.parr ≤ pstart.p →
      Material.MakeMGIsentrope sqrtfn m pstart usemg impvel = (false, m)) := by
  unfold Material.MakeMGIsentrope
  refine ⟨?_, ?_, ?_⟩
  · intro h
    rw [if_pos h]
  · intro hu hi
    by_cases hl : m.hug.parr.length ≤ 10
    · rw [if_pos hl]
    · rw [if_neg hl, if_pos ⟨hu, hi⟩]
  · intro hu hp
    by_cases hl : m.hug.parr.length ≤ 10
    · rw [if_pos hl]
    · rw [if_neg hl]
      by_cases hz : usemg = true ∧ impvel = 0
      · rw [if_pos hz]
      · rw [if_neg hz, if_neg (by simp [hu]), if_pos hp]

/-- Claim C10 witness: in Mie–Grüneisen mode with nonzero impact velocity
the above-maximum departure pressure fails untouched, and a two-sample
Hugoniot fails untouched in trivial mode. -/
theorem MakeMGIsentrope_entry_guards_witness :
    Material.MakeMGIsentrope sqrtZero matGam psHuge true 7 = (false, matGam) ∧
    Material.MakeMGIsentrope sqrtZero matTiny psHuge false 0 = (false, matTiny) := by
  have h1 := (MakeMGIsentrope_entry_guards sqrtZero matGam psHuge true 7).2.2
    rfl (by decide)
  have h2 := (MakeMGIsentrope_entry_guards sqrtZero matTiny psHuge false 0).1
    (by decide)
  exact ⟨h1, h2⟩

/-- Helper: once running, the recompression walk always reports success,
whether it completes or masks out on a non-positive discriminant — the
source sets its success variable at the end of every loop iteration, so
the early return inside a later iteration already sees `True`. -/
theorem upSteps_flag (sqrtfn : ℚ → ℚ) (rest : List (ℚ × ℚ × ℚ × ℚ))
    (st : WalkState) : (upSteps sqrtfn true rest st).1 = true := by
  induction rest generalizing st with
  | nil => rfl
  | cons s rest ih =>
    obtain ⟨hp, he, hg, hv⟩ := s
    simp only [upSteps]
    split
    · exact ih _
    · rfl

/-- Claim C5 (amended): in the Mie–Grüneisen walk toward smaller volumes
(the recompression direction), a non-positive discriminant at a sample
past the first masks that sample and the whole remainder of the branch
undefined and the walk stops, keeping the current (already true) success
flag; in the walk toward larger volumes (the release direction), a
non-positive discriminant leaves the sample's pressure and energy defined,
copies the particle velocities from the previously solved neighbour, and
the walk continues; and in Mie–Grüneisen mode past the entry checks the
operation returns success. -/
theorem MakeMGIsentrope_discriminant_branches :
    (∀ (sqrtfn : ℚ → ℚ) (flag : Bool) (hp he hg hv : ℚ)
        (rest : List (ℚ × ℚ × ℚ × ℚ)) (st : WalkState),
      ¬(0 < -(st.p - (hp - (he - st.e + st.p * (-(hv - st.v)) / 2) * (hg / hv)) /
            (1 - -(hv - st.v) * hg / hv / 2)) / (st.v - hv)) →
      upSteps sqrtfn flag ((hp, he, hg, hv) :: rest) st
        = (flag, List.replicate (rest.length + 1) none)) ∧
    (∀ (sqrtfn : ℚ → ℚ) (hp he hg hv : ℚ)
        (rest : List (ℚ × ℚ × ℚ × ℚ)) (st : WalkState),
      ¬(0 < -(st.p - (hp - (he - st.e + st.p * (hv - st.v) / 2) * (hg / hv)) /
            (1 - (hv - st.v) * hg / hv / 2)) / (st.v - hv)) →
      ∃ p e : ℚ,
        downSteps sqrtfn ((hp, he, hg, hv) :: rest) st
          = (p, e, st.up, st.up2) :: downSteps sqrtfn rest ⟨p, e, st.up, st.up2, hv⟩) ∧
    (∀ (sqrtfn : ℚ → ℚ) (m : Material) (pstart : EOSPoint) (impvel : ℚ),
      10 < m.hug.parr.length → impvel ≠ 0 → pstart.p < npmax m.hug.parr →
      (Material.MakeMGIsentrope sqrtfn m pstart true impvel).1 = true) := by
  refine ⟨?_, ?_, ?_⟩
  · intro sqrtfn flag hp he hg hv rest st h
    simp only [upSteps]
    rw [if_neg h]
  · intro sqrtfn hp he hg hv rest st h
    refine ⟨(hp - (he - st.e + st.p * (hv - st.v) / 2) * (hg / hv)) /
        (1 - (hv - st.v) * hg / hv / 2),
      st.e - (st.p + (hp - (he - st.e + st.p * (hv - st.v) / 2) * (hg / hv)) /
        (1 - (hv - st.v) * hg / hv / 2)) * (hv - st.v) / 2, ?_⟩
    simp only [downSteps]
    rw [if_neg h]
  · intro sqrtfn m pstart impvel hlen hvel hp
    unfold Material.MakeMGIsentrope
    rw [if_neg (by omega), if_neg (by simp [hvel]), if_neg (by simp),
      if_neg (not_le.mpr hp)]
    simp only
    cases hds : (hugSamples m.hug).drop
        (List.findIdx (fun x => decide (pstart.p < x)) m.hug.parr) with
    | nil => rfl
    | cons s0 rest =>
      simp only
      exact upSteps_flag sqrtfn rest _

/-- Claim C5 witness: concrete instances of the three branches — a
one-sample recompression walk with failing discriminant masks its whole
remainder while keeping the flag; a one-sample release walk with failing
discriminant keeps the sample defined with copied particle velocity; and
the `matGam` Mie–Grüneisen run reports success. -/
theorem MakeMGIsentrope_discriminant_branches_witness :
    upSteps sqrtZero true [(0, 0, 0, 1)] ⟨0, 0, 5, 5, 1⟩ = (true, [none]) ∧
    (∃ p e : ℚ, downSteps sqrtZero [(0, 0, 0, 1)] ⟨0, 0, 5, 5, 1⟩ = [(p, e, 5, 5)]) ∧
    isenGam.1 = true := by
  obtain ⟨ha, hb, hc⟩ := MakeMGIsentrope_discriminant_branches
  refine ⟨?_, ?_, ?_⟩
  · have := ha sqrtZero true 0 0 0 1 [] ⟨0, 0, 5, 5, 1⟩ (by decide)
    simpa using this
  · obtain ⟨p, e, hpe⟩ := hb sqrtZero 0 0 0 1 [] ⟨0, 0, 5, 5, 1⟩ (by decide)
    exact ⟨p, e, by simpa using hpe⟩
  · exact hc sqrtZero matGam psGam1500 2000 (by decide) (by decide) (by decide)

/-- Claim C8: a trivial-mode reshock Hugoniot built from a departure point
on the principal Hugoniot (sample `k`) reproduces the principal Hugoniot —
same pressure and energy, particle velocity mirrored about the departure
up — at every sample with up at or above the departure up, and masks
pressure, energy and particle velocity undefined at every sample whose
pressure lies below the departure pressure.  The pressure–particle
velocity monotonicity hypothesis is the spec's documented precondition on
principal Hugoniots. -/
theorem MakeReshockHug_trivial_roundtrip (m : Material) (pstart : EOSPoint)
    (k : ℕ) (hk : k < m.hug.parr.length)
    (hle : m.hug.earr.length = m.hug.parr.length)
    (hlu : m.hug.uparr.length = m.hug.parr.length)
    (hpk : pstart.p = m.hug.parr.getD k 0)
    (hupk : pstart.up = m.hug.uparr.getD k 0)
    (hmono : ∀ i, i < m.hug.parr.length → ∀ j, j < m.hug.parr.length →
      m.hug.uparr.getD i 0 ≤ m.hug.uparr.getD j 0 →
      m.hug.parr.getD i 0 ≤ m.hug.parr.getD j 0) :
    (m.MakeReshockHug pstart).1 = true ∧
    (m.MakeReshockHug pstart).2.reshock.varr = m.hug.varr ∧
    ∀ i, i < m.hug.parr.length →
      (m.hug.uparr.getD k 0 ≤ m.hug.uparr.getD i 0 →
        (m.MakeReshockHug pstart).2.reshock.parr.getD i none
          = some (m.hug.parr.getD i 0) ∧
        (m.MakeReshockHug pstart).2.reshock.earr.getD i none
          = some (m.hug.earr.getD i 0) ∧
        (m.MakeReshockHug pstart).2.reshock.uparr.getD i none
          = some (2 * pstart.up - m.hug.uparr.getD i 0)) ∧
      (m.hug.parr.getD i 0 < pstart.p →
        (m.MakeReshockHug pstart).2.reshock.parr.getD i none = none ∧
        (m.MakeReshockHug pstart).2.reshock.earr.getD i none = none ∧
        (m.MakeReshockHug pstart).2.reshock.uparr.getD i none = none) := by
  refine ⟨rfl, rfl, ?_⟩
  intro i hi
  have hxp : m.hug.parr[i]? = some (m.hug.parr.getD i 0) :=
    getElem?_eq_some_getD _ 0 i hi
  have hxe : m.hug.earr[i]? = some (m.hug.earr.getD i 0) :=
    getElem?_eq_some_getD _ 0 i (by rw [hle]; exact hi)
  have hxu : m.hug.uparr[i]? = some (m.hug.uparr.getD i 0) :=
    getElem?_eq_some_getD _ 0 i (by rw [hlu]; exact hi)
  have hparr : (m.MakeReshockHug pstart).2.reshock.parr
      = m.hug.parr.map fun p =>
          if decide (p < pstart.p) then none else some p := rfl
  have hearr : (m.MakeReshockHug pstart).2.reshock.earr
      = List.zipWith (fun p e => if decide (p < pstart.p) then none else some e)
          m.hug.parr m.hug.earr := rfl
  have huarr : (m.MakeReshockHug pstart).2.reshock.uparr
      = List.zipWith (fun p u => if decide (p < pstart.p) then none
          else some (2 * pstart.up - u)) m.hug.parr m.hug.uparr := rfl
  constructor
  · intro hup
    have hge : ¬(m.hug.parr.getD i 0 < pstart.p) := by
      rw [hpk]
      exact not_lt.mpr (hmono k hk i hi (hupk ▸ hup))
    have hb : decide (m.hug.parr.getD i 0 < pstart.p) = false := by
      simpa using hge
    refine ⟨?_, ?_, ?_⟩
    · rw [hparr, getD_map_eq _ _ i _ none hxp, hb]
      rfl
    · rw [hearr, getD_zipWith_eq _ _ _ i _ _ none hxp hxe, hb]
      rfl
    · rw [huarr, getD_zipWith_eq _ _ _ i _ _ none hxp hxu, hb]
      rfl
  · intro hlt
    have hb : decide (m.hug.parr.getD i 0 < pstart.p) = true := by
      simpa using hlt
    refine ⟨?_, ?_, ?_⟩
    · rw [hparr, getD_map_eq _ _ i _ none hxp, hb]
      rfl
    · rw [hearr, getD_zipWith_eq _ _ _ i _ _ none hxp hxe, hb]
      rfl
    · rw [huarr, getD_zipWith_eq _ _ _ i _ _ none hxp hxu, hb]
      rfl

/-- Claim C8 witness: on the aluminum Hugoniot with departure sample
k = 3 (up = 1500 m/s), the trivial reshock keeps the up = 2500 m/s sample
with its principal pressure and mirrored particle velocity
2·1500 − 2500 = 500 m/s, and masks the up = 500 m/s sample, whose
pressure lies below the departure pressure. -/
theorem MakeReshockHug_trivial_roundtrip_witness :
    (mAl500.MakeReshockHug psAl1500).1 = true ∧
    (mAl500.MakeReshockHug psAl1500).2.reshock.parr.getD 5 none
      = some (2700 * 2500 * 8250) ∧
    (mAl500.MakeReshockHug psAl1500).2.reshock.uparr.getD 5 none = some 500 ∧
    (mAl500.MakeReshockHug psAl1500).2.reshock.parr.getD 1 none = none ∧
    (mAl500.MakeReshockHug psAl1500).2.reshock.uparr.getD 1 none = none := by
  have h := MakeReshockHug_trivial_roundtrip mAl500 psAl1500 3 (by decide)
    (by decide) (by decide) (by decide) (by decide) (by decide)
  have h5 := (h.2.2 5 (by decide)).1 (by decide)
  have h1 := (h.2.2 1 (by decide)).2 (by decide)
  exact ⟨h.1, h5.1.trans (by decide), h5.2.2.trans (by decide), h1.1, h1.2.2⟩

/-- Helper: a convex combination of two rationals lies between their
minimum and maximum. -/
theorem convex_min_max (a b t : ℚ) (h0 : 0 ≤ t) (h1 : t ≤ 1) :
    min a b ≤ a + t * (b - a) ∧ a + t * (b - a) ≤ max a b := by
  rcases le_total a b with hab | hab
  · rw [min_eq_left hab, max_eq_right hab]
    constructor <;> nlinarith
  · rw [min_eq_right hab, max_eq_left hab]
    constructor <;> nlinarith

/-- Helper: with a nonzero determinant and a crossing point shared by the
two segments at parameters `s1p`, `s2p`, the solver's Cramer formulas
return exactly those parameters. -/
theorem cramer_params (a1 c1 b1 d1 a2 c2 b2 d2 s1p s2p : ℚ)
    (hdet : (b2 - a2) * (d1 - c1) - (b1 - a1) * (d2 - c2) ≠ 0)
    (hx : a1 + s1p * (b1 - a1) = a2 + s2p * (b2 - a2))
    (hy : c1 + s1p * (d1 - c1) = c2 + s2p * (d2 - c2)) :
    ((b2 - a2) * (c2 - c1) - (d2 - c2) * (a2 - a1)) /
        ((b2 - a2) * (d1 - c1) - (b1 - a1) * (d2 - c2)) = s1p ∧
    ((b1 - a1) * (c2 - c1) - (d1 - c1) * (a2 - a1)) /
        ((b2 - a2) * (d1 - c1) - (b1 - a1) * (d2 - c2)) = s2p := by
  have hx0 : a2 - a1 = s1p * (b1 - a1) - s2p * (b2 - a2) := by linarith
  have hy0 : c2 - c1 = s1p * (d1 - c1) - s2p * (d2 - c2) := by linarith
  constructor
  · rw [div_eq_iff hdet, hx0, hy0]
    ring
  · rw [div_eq_iff hdet, hx0, hy0]
    ring

/-- Helper: with a nonzero determinant and segment parameters in `[0,1]`
realizing a shared point, the solver accepts the pair and returns that
point. -/
theorem segPairSolve_of_cross (a1 c1 b1 d1 a2 c2 b2 d2 s1p s2p : ℚ)
    (hdet : (b2 - a2) * (d1 - c1) - (b1 - a1) * (d2 - c2) ≠ 0)
    (h10 : 0 ≤ s1p) (h11 : s1p ≤ 1) (h20 : 0 ≤ s2p) (h21 : s2p ≤ 1)
    (hx : a1 + s1p * (b1 - a1) = a2 + s2p * (b2 - a2))
    (hy : c1 + s1p * (d1 - c1) = c2 + s2p * (d2 - c2)) :
    segPairSolve a1 c1 b1 d1 a2 c2 b2 d2
      = some (a1 + s1p * (b1 - a1), c1 + s1p * (d1 - c1)) := by
  have hc1 := convex_min_max a1 b1 s1p h10 h11
  have hc2 := convex_min_max a2 b2 s2p h20 h21
  have hd1 := convex_min_max c1 d1 s1p h10 h11
  have hd2 := convex_min_max c2 d2 s2p h20 h21
  have hbox : min a1 b1 ≤ max a2 b2 ∧ max a1 b1 ≥ min a2 b2 ∧
      min c1 d1 ≤ max c2 d2 ∧ max c1 d1 ≥ min c2 d2 := by
    refine ⟨le_trans hc1.1 ?_, ?_, le_trans hd1.1 ?_, ?_⟩
    · rw [hx]; exact hc2.2
    · exact le_trans (hx ▸ hc2.1) hc1.2
    · rw [hy]; exact hd2.2
    · exact le_trans (hy ▸ hd2.1) hd1.2
  obtain ⟨ht1, ht2⟩ := cramer_params a1 c1 b1 d1 a2 c2 b2 d2 s1p s2p hdet hx hy
  unfold segPairSolve
  rw [if_pos hbox, if_neg hdet, ht1, ht2, if_pos ⟨h10, h11, h20, h21⟩]


/-- Claim C7: for two-point polylines forming two non-parallel segments
that cross (shared point at segment parameters `s1p`, `s2p`, both in
`[0,1]`), the Intersection Solver returns exactly one point, equal to the
analytic solution of the 2×2 linear system; and, in general for a pair of
two-point polylines, every returned point comes from segment parameters
`t1`, `t2` that both lie in `[0,1]`. -/
theorem Intersection_single_segments :
    (∀ a1 c1 b1 d1 a2 c2 b2 d2 s1p s2p : ℚ,
      (b2 - a2) * (d1 - c1) - (b1 - a1) * (d2 - c2) ≠ 0 →
      0 ≤ s1p → s1p ≤ 1 → 0 ≤ s2p → s2p ≤ 1 →
      a1 + s1p * (b1 - a1) = a2 + s2p * (b2 - a2) →
      c1 + s1p * (d1 - c1) = c2 + s2p * (d2 - c2) →
      Intersection [a1, b1] [c1, d1] [a2, b2] [c2, d2]
        = [(a1 + s1p * (b1 - a1), c1 + s1p * (d1 - c1))]) ∧
    (∀ a1 c1 b1 d1 a2 c2 b2 d2 : ℚ, ∀ pt : ℚ × ℚ,
      pt ∈ Intersection [a1, b1] [c1, d1] [a2, b2] [c2, d2] →
      ∃ t1 t2 : ℚ, 0 ≤ t1 ∧ t1 ≤ 1 ∧ 0 ≤ t2 ∧ t2 ≤ 1 ∧
        pt = (a1 + t1 * (b1 - a1), c1 + t1 * (d1 - c1))) := by
  constructor
  · intro a1 c1 b1 d1 a2 c2 b2 d2 s1p s2p hdet h10 h11 h20 h21 hx hy
    have hsolve := segPairSolve_of_cross a1 c1 b1 d1 a2 c2 b2 d2 s1p s2p hdet
      h10 h11 h20 h21 hx hy
    show (segs [a1, b1] [c1, d1]).flatMap _ = _
    rw [show segs [a1, b1] [c1, d1] = [(a1, c1, b1, d1)] from rfl]
    simp [show segs [a2, b2] [c2, d2] = [(a2, c2, b2, d2)] from rfl, hsolve]
  · intro a1 c1 b1 d1 a2 c2 b2 d2 pt hpt
    have hmem : segPairSolve a1 c1 b1 d1 a2 c2 b2 d2 = some pt := by
      have := hpt
      rw [show Intersection [a1, b1] [c1, d1] [a2, b2] [c2, d2]
          = (segs [a1, b1] [c1, d1]).flatMap
            (fun s1 => (segs [a2, b2] [c2, d2]).filterMap fun s2 =>
              segPairSolve s1.1 s1.2.1 s1.2.2.1 s1.2.2.2
                s2.1 s2.2.1 s2.2.2.1 s2.2.2.2) from rfl,
        show segs [a1, b1] [c1, d1] = [(a1, c1, b1, d1)] from rfl,
        show segs [a2, b2] [c2, d2] = [(a2, c2, b2, d2)] from rfl] at this
      simpa using this
    unfold segPairSolve at hmem
    simp only [] at hmem
    split_ifs at hmem with hbox hdet hrange
    · exact ⟨_, _, hrange.1, hrange.2.1, hrange.2.2.1, hrange.2.2.2,
        (Option.some.inj hmem).symm⟩

/-- Claim C7 witness: the segments (0,0)–(2,2) and (0,2)–(2,0) cross at
(1,1), the analytic solution with s1 = s2 = 1/2; the solver returns
exactly that one point. -/
theorem Intersection_single_segments_witness :
    Intersection [0, 2] [0, 2] [0, 2] [2, 0] = [((1 : ℚ), (1 : ℚ))] := by
  have h := Intersection_single_segments.1 0 0 2 2 0 2 2 0 (1/2) (1/2)
    (by norm_num) (by norm_num) (by norm_num) (by norm_num) (by norm_num)
    (by norm_num) (by norm_num)
  simpa using h

/-- Helper: membership in the segment list of a polyline, characterized by
the segment index. -/
theorem segs_mem_iff (xs : List ℚ) : ∀ (ys : List ℚ) (s : ℚ × ℚ × ℚ × ℚ),
    s ∈ segs xs ys ↔ ∃ i : ℕ, i + 1 < xs.length ∧ i + 1 < ys.length ∧
      s = (xs.getD i 0, ys.getD i 0, xs.getD (i+1) 0, ys.getD (i+1) 0) := by
  induction xs with
  | nil =>
    intro ys s
    rw [show segs [] ys = [] from rfl]
    constructor
    · intro h
      exact absurd h (List.not_mem_nil s)
    · rintro ⟨i, h1, -, -⟩
      simp at h1
  | cons x0 xs ih =>
    intro ys s
    rcases xs with _ | ⟨x1, xt⟩
    · rw [show segs [x0] ys = [] from rfl]
      constructor
      · intro h
        exact absurd h (List.not_mem_nil s)
      · rintro ⟨i, h1, -, -⟩
        simp at h1
    · rcases ys with _ | ⟨y0, _ | ⟨y1, yt⟩⟩
      · rw [show segs (x0::x1::xt) [] = [] from rfl]
        constructor
        · intro h
          exact absurd h (List.not_mem_nil s)
        · rintro ⟨i, -, h2, -⟩
          simp at h2
      · rw [show segs (x0::x1::xt) [y0] = [] from rfl]
        constructor
        · intro h
          exact absurd h (List.not_mem_nil s)
        · rintro ⟨i, -, h2, -⟩
          simp at h2
      · rw [show segs (x0::x1::xt) (y0::y1::yt)
            = (x0,y0,x1,y1) :: segs (x1::xt) (y1::yt) from rfl]
        constructor
        · intro h
          rcases List.mem_cons.mp h with h | h
          · exact ⟨0, by simp, by simp, by simpa using h⟩
          · obtain ⟨i, h1, h2, h3⟩ := (ih (y1::yt) s).mp h
            refine ⟨i + 1, by simpa using h1, by simpa using h2, ?_⟩
            simpa [List.getD_cons_succ] using h3
        · rintro ⟨i, h1, h2, h3⟩
          cases i with
          | zero =>
            exact List.mem_cons.mpr (Or.inl (by simpa using h3))
          | succ j =>
            refine List.mem_cons.mpr (Or.inr ((ih (y1::yt) s).mpr
              ⟨j, by simpa using h1, by simpa using h2, ?_⟩))
            simpa [List.getD_cons_succ] using h3

/-- Helper: strict pairwise order gives strict `getD` order. -/
theorem pairwise_lt_getD (l : List ℚ) (h : l.Pairwise (· < ·)) (i j : ℕ)
    (hij : i < j) (hj : j < l.length) : l.getD i 0 < l.getD j 0 := by
  have hi : i < l.length := lt_trans hij hj
  rw [List.getD_eq_getElem?_getD, List.getElem?_eq_getElem hi, Option.getD_some,
    List.getD_eq_getElem?_getD, List.getElem?_eq_getElem hj, Option.getD_some]
  exact List.pairwise_iff_getElem.mp h i j hi hj hij

/-- Helper: strict pairwise order gives weak `getD` order for weak index
order. -/
theorem pairwise_le_getD (l : List ℚ) (h : l.Pairwise (· < ·)) (i j : ℕ)
    (hij : i ≤ j) (hj : j < l.length) : l.getD i 0 ≤ l.getD j 0 := by
  rcases Nat.lt_or_ge i j with hlt | hge
  · exact le_of_lt (pairwise_lt_getD l h i j hlt hj)
  · have : i = j := le_antisymm hij hge
    rw [this]

/-- Helper: a value between the first and last knot of a strictly
increasing list lies in some cell. -/
theorem exists_cell (l : List ℚ) (c : ℚ) : 2 ≤ l.length →
    l.getD 0 0 ≤ c → c ≤ l.getD (l.length - 1) 0 →
    ∃ k, k + 1 < l.length ∧ l.getD k 0 ≤ c ∧ c ≤ l.getD (k + 1) 0 := by
  induction l with
  | nil => intro h2; simp at h2
  | cons x0 l ih =>
    intro h2 hhead hlast
    rcases l with _ | ⟨x1, t⟩
    · simp at h2
    · by_cases hc : c ≤ x1
      · exact ⟨0, by simp, hhead, hc⟩
      · have hx1 : x1 ≤ c := le_of_lt (lt_of_not_le hc)
        have hlast2 : c ≤ (x1 :: t).getD ((x1 :: t).length - 1) 0 := by
          rcases t with _ | ⟨x2, t2⟩
          · exact absurd hlast (by simpa using hc)
          · simpa [List.getD_cons_succ] using hlast
        have h22 : 2 ≤ (x1 :: t).length := by
          rcases t with _ | ⟨x2, t2⟩
          · exact absurd hlast (by simpa using hc)
          · simp
        obtain ⟨k, hk1, hk2, hk3⟩ := ih h22 hx1 hlast2
        exact ⟨k + 1, by simpa using hk1, by simpa [List.getD_cons_succ] using hk2,
          by simpa [List.getD_cons_succ] using hk3⟩

/-- Helper: on the cell containing `x`, `interpQ` is the affine
interpolation of that cell. -/
theorem interpQ_segment (l : List ℚ) : ∀ (p : List ℚ) (x : ℚ) (k : ℕ),
    l.Pairwise (· < ·) → p.length = l.length → k + 1 < l.length →
    l.getD k 0 ≤ x → x ≤ l.getD (k + 1) 0 →
    interpQ x l p = p.getD k 0 +
      (x - l.getD k 0) * (p.getD (k + 1) 0 - p.getD k 0) /
        (l.getD (k + 1) 0 - l.getD k 0) := by
  induction l with
  | nil => intro p x k _ _ hk; simp at hk
  | cons x0 l ih =>
    intro p x k hpw hlen hk hxl hxr
    rcases l with _ | ⟨x1, lt⟩
    · simp at hk
    · rcases p with _ | ⟨y0, p⟩
      · simp at hlen
      · rcases p with _ | ⟨y1, p⟩
        · simp at hlen
        · have h01 : x0 < x1 := (List.pairwise_cons.mp hpw).1 x1 (by simp)
          cases k with
          | zero =>
            rw [show interpQ x (x0::x1::lt) (y0::y1::p)
                  = if x ≤ x0 then y0
                    else if x ≤ x1 then y0 + (x - x0) * (y1 - y0) / (x1 - x0)
                    else interpQ x (x1::lt) (y1::p) from rfl]
            simp only [List.getD_cons_zero, List.getD_cons_succ] at hxl hxr ⊢
            by_cases hx0 : x ≤ x0
            · have hxx : x = x0 := le_antisymm hx0 hxl
              rw [if_pos hx0, hxx]
              rw [sub_self, zero_mul, zero_div, add_zero]
            · rw [if_neg hx0, if_pos hxr]
          | succ j =>
            have hj1 : j + 1 < (x1 :: lt).length := by simpa using hk
            have hxl2 : (x1 :: lt).getD j 0 ≤ x := by
              simpa [List.getD_cons_succ] using hxl
            have hxr2 : x ≤ (x1 :: lt).getD (j + 1) 0 := by
              simpa [List.getD_cons_succ] using hxr
            have hx1le : x1 ≤ x := le_trans (pairwise_le_getD (x1 :: lt)
              (List.pairwise_cons.mp hpw).2 0 j (Nat.zero_le j)
              (lt_trans (Nat.lt_succ_self j) hj1)) hxl2
            have hx0lt : ¬ x ≤ x0 := not_le.mpr (lt_of_lt_of_le h01 hx1le)
            rw [show interpQ x (x0::x1::lt) (y0::y1::p)
                  = if x ≤ x0 then y0
                    else if x ≤ x1 then y0 + (x - x0) * (y1 - y0) / (x1 - x0)
                    else interpQ x (x1::lt) (y1::p) from rfl]
            rw [if_neg hx0lt]
            simp only [List.getD_cons_succ]
            by_cases hx1r : x ≤ x1
            · -- x = x1 and the cell is degenerate to the knot: j = 0
              have hxx : x = x1 := le_antisymm hx1r hx1le
              have hj0 : j = 0 := by
                by_contra hj
                have h1j : (x1 :: lt).getD 0 0 < (x1 :: lt).getD j 0 :=
                  pairwise_lt_getD (x1 :: lt) (List.pairwise_cons.mp hpw).2 0 j
                    (Nat.pos_of_ne_zero hj) (lt_trans (Nat.lt_succ_self j) hj1)
                simp only [List.getD_cons_zero] at h1j
                exact absurd hxl2 (not_le.mpr (hxx ▸ h1j))
              subst hj0
              rw [if_pos hx1r]
              simp only [List.getD_cons_zero, List.getD_cons_succ] at hxl2 hxr2 ⊢
              rw [hxx]
              rw [sub_self, zero_mul, zero_div, add_zero]
              have hne : x1 - x0 ≠ 0 := sub_ne_zero.mpr (ne_of_gt h01)
              field_simp [hne]
            · rw [if_neg hx1r]
              exact ih (y1 :: p) x j (List.pairwise_cons.mp hpw).2
                (by simpa using hlen) hj1 hxl2 hxr2

/-- Helper (one-sided case of `pwl_inj`). -/
theorem pwl_inj_aux (u p : List ℚ) (hu : u.Pairwise (· < ·)) (hp : p.Pairwise (· < ·))
    (hlen : p.length = u.length) (i j : ℕ) (hij : i ≤ j)
    (hi : i + 1 < u.length) (hj : j + 1 < u.length)
    (t1 t2 : ℚ) (ht10 : 0 ≤ t1) (ht11 : t1 ≤ 1) (ht20 : 0 ≤ t2) (ht21 : t2 ≤ 1)
    (heq : p.getD i 0 + t1 * (p.getD (i + 1) 0 - p.getD i 0)
         = p.getD j 0 + t2 * (p.getD (j + 1) 0 - p.getD j 0)) :
    u.getD i 0 + t1 * (u.getD (i + 1) 0 - u.getD i 0)
      = u.getD j 0 + t2 * (u.getD (j + 1) 0 - u.getD j 0) := by
  have hpi : p.getD i 0 < p.getD (i + 1) 0 :=
    pairwise_lt_getD p hp i (i + 1) (Nat.lt_succ_self i) (by omega)
  have hpj : p.getD j 0 < p.getD (j + 1) 0 :=
    pairwise_lt_getD p hp j (j + 1) (Nat.lt_succ_self j) (by omega)
  rcases Nat.eq_or_lt_of_le hij with heqij | hlt
  · subst heqij
    have ht : t1 = t2 := by
      have h2 : t1 * (p.getD (i + 1) 0 - p.getD i 0)
          = t2 * (p.getD (i + 1) 0 - p.getD i 0) := by linarith
      exact mul_right_cancel₀ (ne_of_gt (sub_pos.mpr hpi)) h2
    rw [ht]
  · have hij1 : i + 1 ≤ j := hlt
    have hple : p.getD (i + 1) 0 ≤ p.getD j 0 :=
      pairwise_le_getD p hp (i + 1) j hij1 (by omega)
    have hy1 : p.getD i 0 + t1 * (p.getD (i + 1) 0 - p.getD i 0) ≤ p.getD (i + 1) 0 := by
      nlinarith
    have hy2 : p.getD j 0 ≤ p.getD j 0 + t2 * (p.getD (j + 1) 0 - p.getD j 0) := by
      nlinarith
    have hall : p.getD i 0 + t1 * (p.getD (i + 1) 0 - p.getD i 0) = p.getD (i + 1) 0 ∧
        p.getD j 0 + t2 * (p.getD (j + 1) 0 - p.getD j 0) = p.getD j 0 ∧
        p.getD (i + 1) 0 = p.getD j 0 := by
      constructor
      · linarith
      constructor
      · linarith
      · linarith
    have ht1e : t1 = 1 := by nlinarith [hall.1]
    have ht2e : t2 = 0 := by nlinarith [hall.2.1]
    have hjeq : j = i + 1 := by
      by_contra hne
      have : p.getD (i + 1) 0 < p.getD j 0 :=
        pairwise_lt_getD p hp (i + 1) j (lt_of_le_of_ne hij1 (fun h => hne h.symm))
          (by omega)
      exact absurd hall.2.2 (ne_of_lt this)
    subst hjeq
    rw [ht1e, ht2e]
    ring

/-- Helper: two on-segment parameterizations of strictly increasing
piecewise-linear data that agree in ordinate agree in abscissa. -/
theorem pwl_inj (u p : List ℚ) (hu : u.Pairwise (· < ·)) (hp : p.Pairwise (· < ·))
    (hlen : p.length = u.length) (i j : ℕ)
    (hi : i + 1 < u.length) (hj : j + 1 < u.length)
    (t1 t2 : ℚ) (ht10 : 0 ≤ t1) (ht11 : t1 ≤ 1) (ht20 : 0 ≤ t2) (ht21 : t2 ≤ 1)
    (heq : p.getD i 0 + t1 * (p.getD (i + 1) 0 - p.getD i 0)
         = p.getD j 0 + t2 * (p.getD (j + 1) 0 - p.getD j 0)) :
    u.getD i 0 + t1 * (u.getD (i + 1) 0 - u.getD i 0)
      = u.getD j 0 + t2 * (u.getD (j + 1) 0 - u.getD j 0) := by
  rcases Nat.le_total i j with h | h
  · exact pwl_inj_aux u p hu hp hlen i j h hi hj t1 t2 ht10 ht11 ht20 ht21 heq
  · exact (pwl_inj_aux u p hu hp hlen j i h hj hi t2 t1 ht20 ht21 ht10 ht11
      heq.symm).symm

/-- Helper: membership in the solver's output, characterized by a
candidate segment pair. -/
theorem Intersection_mem (x1 y1 x2 y2 : List ℚ) (pt : ℚ × ℚ) :
    pt ∈ Intersection x1 y1 x2 y2 ↔ ∃ s1 ∈ segs x1 y1, ∃ s2 ∈ segs x2 y2,
      segPairSolve s1.1 s1.2.1 s1.2.2.1 s1.2.2.2 s2.1 s2.2.1 s2.2.2.1 s2.2.2.2
        = some pt := by
  unfold Intersection
  simp only [List.mem_flatMap, List.mem_filterMap]

/-- Helper: the accepted parameters place the returned point on both
segments. -/
theorem cramer_on_segments (x1i y1i x1j y1j x2i y2i x2j y2j : ℚ)
    (hdet : (x2j - x2i) * (y1j - y1i) - (x1j - x1i) * (y2j - y2i) ≠ 0) :
    x1i + ((x2j - x2i) * (y2i - y1i) - (y2j - y2i) * (x2i - x1i)) /
        ((x2j - x2i) * (y1j - y1i) - (x1j - x1i) * (y2j - y2i)) * (x1j - x1i)
      = x2i + ((x1j - x1i) * (y2i - y1i) - (y1j - y1i) * (x2i - x1i)) /
        ((x2j - x2i) * (y1j - y1i) - (x1j - x1i) * (y2j - y2i)) * (x2j - x2i) ∧
    y1i + ((x2j - x2i) * (y2i - y1i) - (y2j - y2i) * (x2i - x1i)) /
        ((x2j - x2i) * (y1j - y1i) - (x1j - x1i) * (y2j - y2i)) * (y1j - y1i)
      = y2i + ((x1j - x1i) * (y2i - y1i) - (y1j - y1i) * (x2i - x1i)) /
        ((x2j - x2i) * (y1j - y1i) - (x1j - x1i) * (y2j - y2i)) * (y2j - y2i) := by
  constructor
  · field_simp
    ring
  · field_simp
    ring

/-- Helper: every accepted pair yields in-range parameters and a point on
both segments. -/
theorem segPairSolve_eq_some (x1i y1i x1j y1j x2i y2i x2j y2j : ℚ) (pt : ℚ × ℚ)
    (h : segPairSolve x1i y1i x1j y1j x2i y2i x2j y2j = some pt) :
    ∃ t1 t2 : ℚ, 0 ≤ t1 ∧ t1 ≤ 1 ∧ 0 ≤ t2 ∧ t2 ≤ 1 ∧
      pt = (x1i + t1 * (x1j - x1i), y1i + t1 * (y1j - y1i)) ∧
      x1i + t1 * (x1j - x1i) = x2i + t2 * (x2j - x2i) ∧
      y1i + t1 * (y1j - y1i) = y2i + t2 * (y2j - y2i) := by
  unfold segPairSolve at h
  simp only [] at h
  split_ifs at h with hbox hdet hrange
  obtain ⟨hcx, hcy⟩ := cramer_on_segments x1i y1i x1j y1j x2i y2i x2j y2j hdet
  exact ⟨_, _, hrange.1, hrange.2.1, hrange.2.2.1, hrange.2.2.2,
    (Option.some.inj h).symm, hcx, hcy⟩

theorem interp_param_eq (pi0 pi1 ui ui1 t1 : ℚ) (hne : ui1 - ui ≠ 0) :
    pi0 + t1 * (pi1 - pi0) = pi0 + t1 * (ui1 - ui) * (pi1 - pi0) / (ui1 - ui) := by
  field_simp
  ring

/-- Helper: every point the solver returns for a strictly increasing
Hugoniot intersected with its own reflection about the impact velocity is
the symmetric point at half the impact velocity. -/
theorem symmetric_cross_point (g P : List ℚ) (vel : ℚ)
    (hg : g.Pairwise (· < ·)) (hP : P.Pairwise (· < ·))
    (hlen : P.length = g.length) (pt : ℚ × ℚ)
    (hpt : pt ∈ Intersection g P (g.map fun u => vel - u) P) :
    pt.1 = vel / 2 ∧ pt.2 = interpQ (vel / 2) g P := by
  obtain ⟨s1, hs1, s2, hs2, hsolve⟩ := (Intersection_mem _ _ _ _ _).mp hpt
  obtain ⟨i, hi1, hi2, rfl⟩ := (segs_mem_iff g P s1).mp hs1
  obtain ⟨j, hj1, hj2, hs2e⟩ := (segs_mem_iff (g.map fun u => vel - u) P s2).mp hs2
  rw [List.length_map] at hj1
  have hmj : (g.map fun u => vel - u).getD j 0 = vel - g.getD j 0 :=
    getD_map_eq _ g j _ 0 (getElem?_eq_some_getD g 0 j (by omega))
  have hmj1 : (g.map fun u => vel - u).getD (j + 1) 0 = vel - g.getD (j + 1) 0 :=
    getD_map_eq _ g (j + 1) _ 0 (getElem?_eq_some_getD g 0 (j + 1) hj1)
  rw [hmj, hmj1] at hs2e
  subst hs2e
  simp only [] at hsolve
  obtain ⟨t1, t2, h10, h11, h20, h21, hpte, hxeq, hyeq⟩ :=
    segPairSolve_eq_some _ _ _ _ _ _ _ _ pt hsolve
  have hab : g.getD i 0 + t1 * (g.getD (i + 1) 0 - g.getD i 0)
      = g.getD j 0 + t2 * (g.getD (j + 1) 0 - g.getD j 0) :=
    pwl_inj g P hg hP hlen i j hi1 hj1 t1 t2 h10 h11 h20 h21 hyeq
  have hx2 : g.getD i 0 + t1 * (g.getD (i + 1) 0 - g.getD i 0) = vel / 2 := by
    have : g.getD i 0 + t1 * (g.getD (i + 1) 0 - g.getD i 0)
        = vel - (g.getD j 0 + t2 * (g.getD (j + 1) 0 - g.getD j 0)) := by
      rw [hxeq]
      ring
    rw [← hab] at this
    linarith
  have hdu : g.getD i 0 < g.getD (i + 1) 0 :=
    pairwise_lt_getD g hg i (i + 1) (Nat.lt_succ_self i) hi1
  have hcell1 : g.getD i 0 ≤ vel / 2 := by nlinarith [hx2]
  have hcell2 : vel / 2 ≤ g.getD (i + 1) 0 := by nlinarith [hx2]
  have hinterp := interpQ_segment g P (vel / 2) i hg hlen hi1 hcell1 hcell2
  constructor
  · rw [hpte]
    exact hx2
  · rw [hpte]
    show P.getD i 0 + t1 * (P.getD (i + 1) 0 - P.getD i 0) = _
    have ht1 : vel / 2 - g.getD i 0 = t1 * (g.getD (i + 1) 0 - g.getD i 0) := by
      linarith [hx2]
    have hdune : g.getD (i + 1) 0 - g.getD i 0 ≠ 0 := ne_of_gt (sub_pos.mpr hdu)
    rw [hinterp, ht1]
    exact interp_param_eq _ _ _ _ _ hdune

/-- Helper: the midpoint of the cell algebra. -/
theorem half_point_eq (uk uk1 vel : ℚ) (hne : uk1 - uk ≠ 0) :
    uk + (vel - 2 * uk) / (2 * (uk1 - uk)) * (uk1 - uk) = vel / 2 := by
  field_simp
  ring

/-- Helper: the symmetric crossing point is in the solver's output. -/
theorem symmetric_cross_exists (g P : List ℚ) (vel : ℚ)
    (hg : g.Pairwise (· < ·)) (hP : P.Pairwise (· < ·)) (hlen : P.length = g.length)
    (k : ℕ) (hk : k + 1 < g.length)
    (hkl : g.getD k 0 ≤ vel / 2) (hkr : vel / 2 ≤ g.getD (k + 1) 0) :
    (vel / 2, interpQ (vel / 2) g P) ∈ Intersection g P (g.map fun u => vel - u) P := by
  have hdu : g.getD k 0 < g.getD (k + 1) 0 :=
    pairwise_lt_getD g hg k (k + 1) (Nat.lt_succ_self k) hk
  have hdp : P.getD k 0 < P.getD (k + 1) 0 :=
    pairwise_lt_getD P hP k (k + 1) (Nat.lt_succ_self k) (by omega)
  have hdune : g.getD (k + 1) 0 - g.getD k 0 ≠ 0 := ne_of_gt (sub_pos.mpr hdu)
  have hdupos : 0 < g.getD (k + 1) 0 - g.getD k 0 := sub_pos.mpr hdu
  set s : ℚ := (vel - 2 * g.getD k 0) / (2 * (g.getD (k + 1) 0 - g.getD k 0)) with hs
  have hs0 : 0 ≤ s := by
    apply div_nonneg (by linarith) (by linarith)
  have hs1 : s ≤ 1 := by
    rw [hs, div_le_one (by linarith)]
    linarith
  have hsx : g.getD k 0 + s * (g.getD (k + 1) 0 - g.getD k 0) = vel / 2 :=
    half_point_eq _ _ _ hdune
  have hdet : ((vel - g.getD (k + 1) 0) - (vel - g.getD k 0)) * (P.getD (k + 1) 0 - P.getD k 0)
      - (g.getD (k + 1) 0 - g.getD k 0) * (P.getD (k + 1) 0 - P.getD k 0) ≠ 0 := by
    have hrw : ((vel - g.getD (k + 1) 0) - (vel - g.getD k 0)) * (P.getD (k + 1) 0 - P.getD k 0)
        - (g.getD (k + 1) 0 - g.getD k 0) * (P.getD (k + 1) 0 - P.getD k 0)
        = -(2 * ((g.getD (k + 1) 0 - g.getD k 0) * (P.getD (k + 1) 0 - P.getD k 0))) := by
      ring
    rw [hrw]
    exact neg_ne_zero.mpr (ne_of_gt (mul_pos (by linarith)
      (mul_pos hdupos (sub_pos.mpr hdp))))
  have hsolve := segPairSolve_of_cross (g.getD k 0) (P.getD k 0)
    (g.getD (k + 1) 0) (P.getD (k + 1) 0) (vel - g.getD k 0) (P.getD k 0)
    (vel - g.getD (k + 1) 0) (P.getD (k + 1) 0) s s hdet hs0 hs1 hs0 hs1
    (by
      have hrw : (vel - g.getD k 0) + s * ((vel - g.getD (k + 1) 0) - (vel - g.getD k 0))
          = vel - (g.getD k 0 + s * (g.getD (k + 1) 0 - g.getD k 0)) := by ring
      rw [hrw, hsx]
      ring) rfl
  have hpt_eq : (g.getD k 0 + s * (g.getD (k + 1) 0 - g.getD k 0),
      P.getD k 0 + s * (P.getD (k + 1) 0 - P.getD k 0))
      = ((vel / 2 : ℚ), interpQ (vel / 2) g P) := by
    have hy : P.getD k 0 + s * (P.getD (k + 1) 0 - P.getD k 0)
        = interpQ (vel / 2) g P := by
      have hinterp := interpQ_segment g P (vel / 2) k hg hlen hk hkl hkr
      have hvh : vel / 2 - g.getD k 0 = s * (g.getD (k + 1) 0 - g.getD k 0) := by
        linarith [hsx]
      rw [hinterp, hvh]
      exact interp_param_eq _ _ _ _ _ hdune
    rw [hsx, hy]
  rw [← hpt_eq]
  apply (Intersection_mem _ _ _ _ _).mpr
  refine ⟨(g.getD k 0, P.getD k 0, g.getD (k + 1) 0, P.getD (k + 1) 0),
    (segs_mem_iff g P _).mpr ⟨k, hk, by omega, rfl⟩,
    (vel - g.getD k 0, P.getD k 0, vel - g.getD (k + 1) 0, P.getD (k + 1) 0),
    (segs_mem_iff _ P _).mpr ⟨k, by simpa using hk, by omega, ?_⟩, hsolve⟩
  rw [getD_map_eq _ g k _ 0 (getElem?_eq_some_getD g 0 k (by omega)),
    getD_map_eq _ g (k + 1) _ 0 (getElem?_eq_some_getD g 0 (k + 1) hk)]

/-- Helper: a nonempty intersection makes the first-interface match
succeed with the first root as the shared state. -/
theorem IM_match_first_cons (mata matb : Material) (vel : ℚ) (ux py : ℚ)
    (tl : List (ℚ × ℚ))
    (hres : Intersection matb.hug.uparr matb.hug.parr
        (mata.hug.uparr.map fun u => vel - u) mata.hug.parr = (ux, py) :: tl) :
    ∃ ra rb : Material, Material.IM_match_first mata matb vel = some (ra, rb) ∧
      ra.im1.up = ux ∧ ra.im1.p = py ∧ rb.im1.up = ux ∧ rb.im1.p = py := by
  unfold Material.IM_match_first
  rw [hres]
  exact ⟨_, _, rfl, rfl, rfl, rfl, rfl⟩

/-- Claim C6: a material impacted by an identical material (same
parameters, Hugoniots built on the same strictly increasing grid starting
at 0 and spanning at least twice the impact velocity, with strictly
increasing pressure) matches at exactly up = V/2, at the interpolated
Hugoniot pressure — for every material, grid and impact velocity V > 0. -/
theorem IM_match_symmetric_impact (expfn : ℚ → ℚ) (powfn : ℚ → ℚ → ℚ)
    (m0 : Material) (g : List ℚ) (vel : ℚ)
    (hvel : 0 < vel)
    (hg : g.Pairwise (· < ·))
    (hlen2 : 2 ≤ g.length)
    (hhead : g.getD 0 0 = 0)
    (hlast : 2 * vel ≤ g.getD (g.length - 1) 0)
    (hP : (m0.MakeHugoniot expfn powfn g).hug.parr.Pairwise (· < ·)) :
    ∃ ra rb : Material,
      Material.IM_match_first (m0.MakeHugoniot expfn powfn g)
        (m0.MakeHugoniot expfn powfn g) vel = some (ra, rb) ∧
      ra.im1.up = vel / 2 ∧
      ra.im1.p = interpQ (vel / 2) g (m0.MakeHugoniot expfn powfn g).hug.parr ∧
      rb.im1.up = vel / 2 ∧
      rb.im1.p = interpQ (vel / 2) g (m0.MakeHugoniot expfn powfn g).hug.parr := by
  have hplen : (m0.MakeHugoniot expfn powfn g).hug.parr.length = g.length :=
    (MakeHugoniot_lengths expfn powfn m0 g).2.1
  obtain ⟨k, hk, hkl, hkr⟩ := exists_cell g (vel / 2) hlen2
    (by rw [hhead]; linarith) (le_trans (by linarith) hlast)
  have hmem := symmetric_cross_exists g (m0.MakeHugoniot expfn powfn g).hug.parr
    vel hg hP hplen k hk hkl hkr
  cases hres : Intersection g (m0.MakeHugoniot expfn powfn g).hug.parr
      (g.map fun u => vel - u) (m0.MakeHugoniot expfn powfn g).hug.parr with
  | nil =>
    rw [hres] at hmem
    exact absurd hmem (List.not_mem_nil _)
  | cons a tl =>
    obtain ⟨ux, py⟩ := a
    have ha : ((ux, py) : ℚ × ℚ).1 = vel / 2 ∧ ((ux, py) : ℚ × ℚ).2
        = interpQ (vel / 2) g (m0.MakeHugoniot expfn powfn g).hug.parr :=
      symmetric_cross_point g (m0.MakeHugoniot expfn powfn g).hug.parr vel hg hP
        hplen (ux, py) (by rw [hres]; exact List.mem_cons_self _ _)
    obtain ⟨ra, rb, hcall, hu1, hp1, hu2, hp2⟩ :=
      IM_match_first_cons (m0.MakeHugoniot expfn powfn g)
        (m0.MakeHugoniot expfn powfn g) vel ux py tl hres
    exact ⟨ra, rb, hcall, hu1.trans ha.1, hp1.trans ha.2, hu2.trans ha.1,
      hp2.trans ha.2⟩

/-- Claim C6 witness: the spec's scenario — aluminum-like material
ρ0 = 2700, c0 = 5350, s1 = 1.16 impacted by itself at 2000 m/s on the
0..4000 m/s grid — matches at up = 1000 m/s and
P = 2700·1000·6510 = 1.7577e10 Pa. -/
theorem IM_match_symmetric_impact_witness :
    ∃ ra rb : Material, Material.IM_match_first mAl500 mAl500 2000 = some (ra, rb) ∧
      ra.im1.up = 1000 ∧ ra.im1.p = 17577000000 := by
  obtain ⟨ra, rb, hcall, hu1, hp1, hu2, hp2⟩ := IM_match_symmetric_impact expOne
    powId matAl ((List.range 9).map fun i => (i : ℚ) * 500) 2000 (by norm_num)
    (by decide) (by decide) (by decide) (by decide) (by decide)
  exact ⟨ra, rb, hcall, hu1.trans (by norm_num), hp1.trans (by decide)⟩
